import Mathlib

/-!
Verification of the phi-accrual failure detector library.

The development shallowly embeds the library's core data structures and
operations:

* `CircleBuffer` — the fixed-capacity ring buffer (`CircleBuffer::push`,
  `CircleBuffer::len` from the source);
* `HeartbeatHistory` — running sum / sum-of-squares statistics over the
  ring buffer (`mean`, `variance`, `std_deviation`, `add`);
* `DetectorState` — detector core state with `heartbeat`,
  `is_available_for_timestamp` and `phi_for_timestamp`;
* `build` — the builder's validation and bootstrap logic.

Machine floating-point values (`f64`) are modelled as real numbers; the
`Duration` type is modelled as a count of nanoseconds, with `asMillis`
truncating integer division exactly like `Duration::as_millis`.
Timestamps of the default clock are modelled as real-valued instants
measured in milliseconds; `elapsedMs` clamps negative differences to zero
exactly as the source's `DefaultClock::elapsed` does.
-/

/-- Ring buffer state: `data` is the backing vector, `capacity` the fixed
capacity, `cursor` the total number of pushes ever performed. -/
structure CircleBuffer (α : Type) where
  data : List α
  capacity : Nat
  cursor : Nat
  deriving Repr, DecidableEq

namespace CircleBuffer

/-- `CircleBuffer::new`: empty backing vector, cursor at zero. -/
def new (α : Type) (capacity : Nat) : CircleBuffer α :=
  { data := [], capacity := capacity, cursor := 0 }

/-- `CircleBuffer::push`: increments the cursor; appends while the backing
vector is shorter than the capacity, otherwise overwrites the slot
`(cursor - 1) % capacity` and returns the overwritten value. -/
def push (buf : CircleBuffer α) (item : α) : Option α × CircleBuffer α :=
  let cursor := buf.cursor + 1
  if buf.data.length < buf.capacity then
    (none, { buf with cursor := cursor, data := buf.data ++ [item] })
  else
    let oldestIdx := (cursor - 1) % buf.capacity
    (buf.data[oldestIdx]?,
      { buf with cursor := cursor, data := buf.data.set oldestIdx item })

/-- `CircleBuffer::len`: returns the cursor, i.e. the total number of items
ever inserted (not capped at capacity). -/
def len (buf : CircleBuffer α) : Nat :=
  buf.cursor

/-- Push every element of a list in order, discarding the evicted values. -/
def pushList (buf : CircleBuffer α) (xs : List α) : CircleBuffer α :=
  xs.foldl (fun b x => (b.push x).2) buf

/-- Push every element of a list in order, collecting the evicted values. -/
def pushTrace (buf : CircleBuffer α) (xs : List α) : List (Option α) × CircleBuffer α :=
  xs.foldl (fun acc x =>
    let r := acc.2.push x
    (acc.1 ++ [r.1], r.2)) ([], buf)

end CircleBuffer

/-- The source's `pow2` helper: `x * x`. -/
def pow2 (x : ℝ) : ℝ := x * x

/-- Heartbeat statistics: ring buffer of inter-arrival intervals together
with running sum and running sum of squares. -/
structure HeartbeatHistory where
  intervals : CircleBuffer ℝ
  interval_sum : ℝ
  squared_interval_sum : ℝ

namespace HeartbeatHistory

/-- `HeartbeatHistory::new`: empty buffer of the given capacity, zero
accumulators.  (The source asserts `max_sample_size > 0`.) -/
def new (max_sample_size : Nat) : HeartbeatHistory :=
  { intervals := CircleBuffer.new ℝ max_sample_size
    interval_sum := 0
    squared_interval_sum := 0 }

/-- `HeartbeatHistory::mean`: running sum divided by `CircleBuffer::len`,
i.e. by the uncapped total-insert counter. -/
noncomputable def mean (h : HeartbeatHistory) : ℝ :=
  h.interval_sum / (h.intervals.len : ℝ)

/-- `HeartbeatHistory::variance`. -/
noncomputable def variance (h : HeartbeatHistory) : ℝ :=
  h.squared_interval_sum / (h.intervals.len : ℝ) - pow2 h.mean

/-- `HeartbeatHistory::std_deviation`. -/
noncomputable def std_deviation (h : HeartbeatHistory) : ℝ :=
  Real.sqrt h.variance

/-- `HeartbeatHistory::add`: accumulate the new interval and its square,
push it into the buffer, and on eviction subtract the evicted value and its
square. -/
def add (h : HeartbeatHistory) (interval : ℝ) : HeartbeatHistory :=
  let sum := h.interval_sum + interval
  let sq := h.squared_interval_sum + pow2 interval
  match h.intervals.push interval with
  | (some oldest, buf) =>
    { intervals := buf, interval_sum := sum - oldest,
      squared_interval_sum := sq - pow2 oldest }
  | (none, buf) =>
    { intervals := buf, interval_sum := sum, squared_interval_sum := sq }

/-- Add every interval of a list in order. -/
def addList (h : HeartbeatHistory) (xs : List ℝ) : HeartbeatHistory :=
  xs.foldl add h

end HeartbeatHistory

/-- The accumulator invariant of the heartbeat history: the backing vector
fills up to the capacity, `interval_sum` is the sum of the values currently
in the window, and `squared_interval_sum` is the sum of their squares. -/
def HistoryInv (h : HeartbeatHistory) : Prop :=
  h.intervals.data.length = min h.intervals.cursor h.intervals.capacity ∧
  h.interval_sum = h.intervals.data.sum ∧
  h.squared_interval_sum = (h.intervals.data.map pow2).sum

/-- `DefaultClock::elapsed` composed with `elapsed_ms`: timestamps are
real-valued instants in milliseconds, and a negative difference is clamped
to zero. -/
noncomputable def elapsedMs (before after : ℝ) : ℝ :=
  max (after - before) 0

/-- The detector core state (`DetectorState` in the source): numeric
configuration copies, the heartbeat history, and the optional last
heartbeat timestamp. -/
structure DetectorState where
  threshold : ℝ
  acceptable_heartbeat_pause : ℝ
  min_std_deviation : ℝ
  history : HeartbeatHistory
  last_timestamp : Option ℝ

namespace DetectorState

/-- `DetectorState::phi_for_timestamp`: `0` when no heartbeat was ever
recorded, otherwise the logistic-approximation formula of the source. -/
noncomputable def phi_for_timestamp (st : DetectorState) (timestamp : ℝ) : ℝ :=
  match st.last_timestamp with
  | none => 0
  | some last_timestamp =>
    let time_diff := elapsedMs last_timestamp timestamp
    let mean := st.history.mean + st.acceptable_heartbeat_pause
    let std_deviation := max st.history.std_deviation st.min_std_deviation
    let y := (time_diff - mean) / std_deviation
    let e := Real.exp (-y * (1.5976 + 0.070566 * y * y))
    if time_diff > mean then
      -Real.logb 10 (e / (1 + e))
    else
      -Real.logb 10 (1 - 1 / (1 + e))

/-- `DetectorState::is_available_for_timestamp`: phi strictly below the
threshold. -/
noncomputable def is_available_for_timestamp (st : DetectorState) (timestamp : ℝ) : Prop :=
  st.phi_for_timestamp timestamp < st.threshold

noncomputable instance (st : DetectorState) (timestamp : ℝ) :
    Decidable (st.is_available_for_timestamp timestamp) :=
  Real.decidableLT _ _

/-- `DetectorState::heartbeat`: when a previous timestamp exists and the
detector is still available at `timestamp`, feed the elapsed interval into
the history; in every case record `timestamp` as the last heartbeat. -/
noncomputable def heartbeat (st : DetectorState) (timestamp : ℝ) : DetectorState :=
  let st' :=
    match st.last_timestamp with
    | some last_timestamp =>
      if st.is_available_for_timestamp timestamp then
        { st with history := st.history.add (elapsedMs last_timestamp timestamp) }
      else
        st
    | none => st
  { st' with last_timestamp := some timestamp }

end DetectorState

/-- A `Duration` value, modelled as a count of nanoseconds. -/
abbrev Duration := Nat

/-- `Duration::as_millis`: truncating division by 10^6. -/
def Duration.asMillis (d : Duration) : Nat :=
  d / 1000000

/-- Builder configuration. -/
structure Config where
  threshold : ℝ
  max_sample_size : Nat
  min_std_deviation : Duration
  acceptable_heartbeat_pause : Duration
  first_heartbeat_estimate : Duration

/-- `Config::default`: threshold 8.0, 100 samples, 100 ms, 3 s, 1 s. -/
noncomputable def Config.default : Config :=
  { threshold := 8
    max_sample_size := 100
    min_std_deviation := 100 * 1000000
    acceptable_heartbeat_pause := 3 * 1000000000
    first_heartbeat_estimate := 1000000000 }

/-- The construction error type. -/
inductive BuildError where
  | threshold
  | maxSampleSize
  | minStdDeviation
  | firstHeartbeatEstimate
  deriving Repr, DecidableEq

/-- `Builder::build`: validate each configuration field in order, then seed
the history with the two bootstrap samples and return the initial detector
state. -/
noncomputable def build (config : Config) : Except BuildError DetectorState :=
  if config.threshold ≤ 0 then
    .error .threshold
  else if config.max_sample_size = 0 then
    .error .maxSampleSize
  else if config.min_std_deviation = 0 then
    -- `Duration::is_zero` on the nanosecond model
    .error .minStdDeviation
  else if config.first_heartbeat_estimate = 0 then
    .error .firstHeartbeatEstimate
  else
    let mean : ℝ := (config.first_heartbeat_estimate.asMillis : ℝ)
    let std_deviation := mean / 4
    let history :=
      ((HeartbeatHistory.new config.max_sample_size).add
        (mean - std_deviation)).add (mean + std_deviation)
    .ok
      { threshold := config.threshold
        acceptable_heartbeat_pause := (config.acceptable_heartbeat_pause.asMillis : ℝ)
        min_std_deviation := (config.min_std_deviation.asMillis : ℝ)
        history := history
        last_timestamp := none }

/-- Projection used to state facts about a successful build: the history of
the freshly built detector, when construction succeeds. -/
noncomputable def buildHistory (config : Config) : Option HeartbeatHistory :=
  match build config with
  | .ok st => some st.history
  | .error _ => none

/-- The backing vector of the freshly built detector's history. -/
noncomputable def buildHistoryData (config : Config) : Option (List ℝ) :=
  (buildHistory config).map fun h => h.intervals.data

/-- The mean of the freshly built detector's history. -/
noncomputable def buildHistoryMean (config : Config) : Option ℝ :=
  (buildHistory config).map fun h => h.mean

/-- The standard deviation of the freshly built detector's history. -/
noncomputable def buildHistoryStd (config : Config) : Option ℝ :=
  (buildHistory config).map fun h => h.std_deviation

/-- The phi formula transcribed from the specification text (§4.3), used as
the reference for the refinement claim about `phi_for_timestamp`: `Δ`, `μ`,
`σ`, `y`, `e` and the two arms, with `0` when no heartbeat was ever
recorded. -/
noncomputable def specPhi (st : DetectorState) (now : ℝ) : ℝ :=
  match st.last_timestamp with
  | none => 0
  | some last =>
    let Δ := elapsedMs last now
    let μ := st.history.mean + st.acceptable_heartbeat_pause
    let σ := max st.history.std_deviation st.min_std_deviation
    let y := (Δ - μ) / σ
    let e := Real.exp (-y * (1.5976 + 0.070566 * y ^ 2))
    if Δ > μ then -Real.logb 10 (e / (1 + e))
    else -Real.logb 10 (1 - 1 / (1 + e))

/-- The logistic exponential appearing inside `phi_for_timestamp`, as a
standalone function of the detector state, the last timestamp and the query
timestamp. -/
noncomputable def phiExpTerm (st : DetectorState) (last timestamp : ℝ) : ℝ :=
  let time_diff := elapsedMs last timestamp
  let mean := st.history.mean + st.acceptable_heartbeat_pause
  let std_deviation := max st.history.std_deviation st.min_std_deviation
  let y := (time_diff - mean) / std_deviation
  Real.exp (-y * (1.5976 + 0.070566 * y * y))

namespace CircleBuffer

variable {α : Type}

theorem push_snd_capacity (b : CircleBuffer α) (x : α) :
    ((b.push x).2).capacity = b.capacity := by
  unfold push; dsimp only; split <;> rfl

theorem push_snd_cursor (b : CircleBuffer α) (x : α) :
    ((b.push x).2).cursor = b.cursor + 1 := by
  unfold push; dsimp only; split <;> rfl

theorem push_eq_append (b : CircleBuffer α) (x : α)
    (h : b.data.length < b.capacity) :
    b.push x = (none, { b with cursor := b.cursor + 1, data := b.data ++ [x] }) := by
  unfold push; dsimp only; rw [if_pos h]

theorem push_eq_evict (b : CircleBuffer α) (x : α)
    (h : ¬ b.data.length < b.capacity) :
    b.push x = (b.data[b.cursor % b.capacity]?,
      { b with cursor := b.cursor + 1,
               data := b.data.set (b.cursor % b.capacity) x }) := by
  unfold push; dsimp only; rw [if_neg h, Nat.add_sub_cancel]

theorem pushList_append_singleton (b : CircleBuffer α) (xs : List α) (x : α) :
    pushList b (xs ++ [x]) = ((pushList b xs).push x).2 := by
  simp [pushList]

theorem pushList_capacity (b : CircleBuffer α) (xs : List α) :
    (pushList b xs).capacity = b.capacity := by
  induction xs generalizing b with
  | nil => rfl
  | cons y ys ih => rw [pushList, List.foldl_cons, ← pushList, ih, push_snd_capacity]

theorem pushList_cursor (b : CircleBuffer α) (xs : List α) :
    (pushList b xs).cursor = b.cursor + xs.length := by
  induction xs generalizing b with
  | nil => rfl
  | cons y ys ih =>
    rw [pushList, List.foldl_cons, ← pushList, ih, push_snd_cursor, List.length_cons]
    omega

/-- Evaluation of `(i + c - a) % c` for reduced `a` and `i`. -/
theorem mod_shift_eq (c a i : Nat) (ha : a < c) (hi : i < c) :
    (i + c - a) % c = if a ≤ i then i - a else i + c - a := by
  split
  · rw [show i + c - a = (i - a) + c by omega, Nat.add_mod_right,
      Nat.mod_eq_of_lt (by omega)]
  · exact Nat.mod_eq_of_lt (by omega)

theorem succ_mod_eq (n c : Nat) (hc : 0 < c) :
    (n + 1) % c = if n % c + 1 = c then 0 else n % c + 1 := by
  have hmd := Nat.mod_add_div n c
  have ha : n % c < c := Nat.mod_lt n hc
  rw [show n + 1 = (n % c + 1) + c * (n / c) by omega, Nat.add_mul_mod_self_left]
  split
  · rename_i h; rw [h, Nat.mod_self]
  · exact Nat.mod_eq_of_lt (by omega)

/-- Index bookkeeping for the eviction step, hit slot: the slot overwritten
by push number `n + 1` corresponds to source position `n` in the stream. -/
theorem idx_step_hit (c n : Nat) (hc : 0 < c) (hcn : c ≤ n) :
    n + 1 - c + ((n % c + c - (n + 1) % c) % c) = n := by
  have ha : n % c < c := Nat.mod_lt n hc
  rw [succ_mod_eq n c hc]
  split
  · rw [mod_shift_eq c 0 (n % c) hc ha]
    simp only [Nat.zero_le, if_true]
    omega
  · rw [mod_shift_eq c (n % c + 1) (n % c) (by omega) ha]
    have : ¬ (n % c + 1 ≤ n % c) := by omega
    simp only [this, if_false]
    omega

/-- Index bookkeeping for the eviction step, untouched slots. -/
theorem idx_step_miss (c n i : Nat) (hc : 0 < c) (hcn : c ≤ n) (hi : i < c)
    (hne : i ≠ n % c) :
    n + 1 - c + ((i + c - (n + 1) % c) % c) = n - c + ((i + c - n % c) % c) := by
  have ha : n % c < c := Nat.mod_lt n hc
  rw [succ_mod_eq n c hc]
  split
  · rw [mod_shift_eq c 0 i hc hi, mod_shift_eq c (n % c) i ha hi]
    simp only [Nat.zero_le, if_true]
    split <;> omega
  · rw [mod_shift_eq c (n % c + 1) i (by omega) hi, mod_shift_eq c (n % c) i ha hi]
    split <;> split <;> omega

/-- Full characterization of the state reached from an empty buffer by a
sequence of pushes: the cursor counts every push; while at most `c` items
have been pushed the backing vector is the pushed list itself; afterwards
the vector has length `c` and slot `i` holds the stream element at position
`n - c + ((i + c - n % c) % c)`, i.e. the latest element whose position is
congruent to `i` modulo `c`. -/
theorem pushList_new_characterization (c : Nat) (hc : 0 < c) (xs : List α) :
    (pushList (new α c) xs).capacity = c ∧
    (pushList (new α c) xs).cursor = xs.length ∧
    (xs.length ≤ c → (pushList (new α c) xs).data = xs) ∧
    (c ≤ xs.length →
      (pushList (new α c) xs).data.length = c ∧
      ∀ i, i < c →
        (pushList (new α c) xs).data[i]? =
          xs[xs.length - c + ((i + c - xs.length % c) % c)]?) := by
  induction xs using List.reverseRecOn with
  | nil =>
    refine ⟨rfl, rfl, fun _ => rfl, fun h => ?_⟩
    have : c = 0 := by simpa using h
    omega
  | append_singleton xs x ih =>
    obtain ⟨ihcap, ihcur, ihlo, ihhi⟩ := ih
    rw [pushList_append_singleton]
    set b := pushList (new α c) xs with hb
    rcases Nat.lt_or_ge xs.length c with hlt | hge
    · -- the buffer is not yet full: push appends
      have hdata : b.data = xs := ihlo (le_of_lt hlt)
      have hlen : b.data.length < b.capacity := by rw [hdata, ihcap]; exact hlt
      have hpush : (b.push x).2 =
          { b with cursor := b.cursor + 1, data := b.data ++ [x] } := by
        unfold push; dsimp only; rw [if_pos hlen]
      refine ⟨by rw [hpush, ihcap], by simp [hpush, ihcur], fun _ => ?_, fun hc' => ?_⟩
      · rw [hpush]; dsimp only; rw [hdata]
      · -- only possible when the push exactly fills the buffer
        have hcl : xs.length + 1 = c := by
          simp only [List.length_append, List.length_singleton] at hc'; omega
        constructor
        · rw [hpush]; dsimp only; rw [List.length_append, hdata]; simpa using hcl
        · intro i hi
          rw [hpush]; dsimp only
          rw [hdata]
          have h0 : (xs.length + 1) % c = 0 := by rw [hcl, Nat.mod_self]
          rw [List.length_append, List.length_singleton, h0]
          rw [mod_shift_eq c 0 i hc hi]
          simp only [Nat.zero_le, if_true]
          have : xs.length + 1 - c + (i - 0) = i := by omega
          rw [this]
    · -- the buffer is full: push overwrites the oldest slot
      obtain ⟨hdlen, hidx⟩ := ihhi hge
      have hnotlt : ¬ b.data.length < b.capacity := by rw [hdlen, ihcap]; omega
      have hpush : (b.push x).2 =
          { b with cursor := b.cursor + 1,
                   data := b.data.set ((b.cursor + 1 - 1) % b.capacity) x } := by
        unfold push; dsimp only; rw [if_neg hnotlt]
      set n := xs.length with hn
      have hslot : (b.cursor + 1 - 1) % b.capacity = n % c := by
        rw [ihcur, ihcap, Nat.add_sub_cancel]
      refine ⟨by rw [hpush, ihcap], by simp [hpush, ihcur], fun habs => ?_, fun _ => ?_⟩
      · exfalso; rw [List.length_append, List.length_singleton] at habs; omega
      · have hlen' : ((b.push x).2).data.length = c := by
          rw [hpush]; dsimp only; rw [List.length_set, hdlen]
        refine ⟨hlen', fun i hi => ?_⟩
        rw [List.length_append, List.length_singleton]
        rw [hpush]; dsimp only
        rw [hslot]
        rcases eq_or_ne i (n % c) with heq | hne
        · subst heq
          rw [List.getElem?_set_eq_of_lt x (by rw [hdlen]; exact Nat.mod_lt n hc)]
          rw [idx_step_hit c n hc hge]
          rw [show (xs ++ [x])[n]? = some x by
            rw [hn]; simp]
        · rw [List.getElem?_set_ne (Ne.symm hne)]
          rw [idx_step_miss c n i hc hge hi hne]
          rw [hidx i hi]
          have harg : n - c + ((i + c - n % c) % c) < n := by
            have h1 : (i + c - n % c) % c < c := Nat.mod_lt _ hc
            omega
          rw [List.getElem?_append_left harg]

theorem push_new_fst_of_lt (c : Nat) (hc : 0 < c) (xs : List α)
    (hlt : xs.length < c) (x : α) :
    ((pushList (new α c) xs).push x).1 = none := by
  obtain ⟨hcap, hcur, hlo, _⟩ := pushList_new_characterization c hc xs
  have hdata := hlo hlt.le
  unfold push; dsimp only
  rw [if_pos (by rw [hdata, hcap]; exact hlt)]

theorem push_new_fst_of_ge (c : Nat) (hc : 0 < c) (xs : List α)
    (hge : c ≤ xs.length) (x : α) :
    ((pushList (new α c) xs).push x).1 = xs[xs.length - c]? := by
  obtain ⟨hcap, hcur, _, hhi⟩ := pushList_new_characterization c hc xs
  obtain ⟨hdlen, hidx⟩ := hhi hge
  unfold push; dsimp only
  rw [if_neg (by rw [hdlen, hcap]; omega)]
  dsimp only
  rw [hcur, hcap, Nat.add_sub_cancel]
  rw [hidx (xs.length % c) (Nat.mod_lt _ hc)]
  have h1 : xs.length % c + c - xs.length % c = c := by omega
  rw [h1, Nat.mod_self, Nat.add_zero]

theorem mod_rotate_arg_eq (c a i : Nat) (hc : 0 < c) (ha : a < c) :
    (i + (c - a) % c) % c = (i + c - a) % c := by
  rcases Nat.eq_zero_or_pos a with h0 | hpos
  · subst h0
    rw [Nat.sub_zero, Nat.mod_self, Nat.add_zero,
      show i + c - 0 = i + c by omega, Nat.add_mod_right]
  · rw [show (c - a) % c = c - a from Nat.mod_eq_of_lt (by omega),
      show i + (c - a) = i + c - a by omega]

theorem pushList_new_data_eq_rotate (c : Nat) (hc : 0 < c) (xs : List α)
    (hge : c ≤ xs.length) :
    (pushList (new α c) xs).data =
      (xs.drop (xs.length - c)).rotate ((c - xs.length % c) % c) := by
  obtain ⟨hcap, hcur, _, hhi⟩ := pushList_new_characterization c hc xs
  obtain ⟨hdlen, hidx⟩ := hhi hge
  have hdl : (xs.drop (xs.length - c)).length = c := by
    rw [List.length_drop]; omega
  have hrl : ((xs.drop (xs.length - c)).rotate ((c - xs.length % c) % c)).length = c := by
    rw [List.length_rotate, hdl]
  apply List.ext_getElem?
  intro i
  rcases Nat.lt_or_ge i c with hi | hi
  · have hiR : i < ((xs.drop (xs.length - c)).rotate ((c - xs.length % c) % c)).length := by
      rw [hrl]; exact hi
    have hmodlt : (i + (c - xs.length % c) % c) % (xs.drop (xs.length - c)).length <
        (xs.drop (xs.length - c)).length := by
      rw [hdl]; exact Nat.mod_lt _ hc
    have hrhs : ((xs.drop (xs.length - c)).rotate ((c - xs.length % c) % c))[i]? =
        xs[xs.length - c + ((i + c - xs.length % c) % c)]? := by
      rw [List.getElem?_eq_getElem hiR, List.getElem_rotate,
        ← List.getElem?_eq_getElem hmodlt, List.getElem?_drop, hdl,
        mod_rotate_arg_eq c (xs.length % c) i hc (Nat.mod_lt _ hc)]
    rw [hidx i hi, hrhs]
  · rw [List.getElem?_eq_none (show ((pushList (new α c) xs).data).length ≤ i by
        rw [hdlen]; exact hi),
      List.getElem?_eq_none (show
        ((xs.drop (xs.length - c)).rotate ((c - xs.length % c) % c)).length ≤ i by
        rw [hrl]; exact hi)]

theorem pushList_new_data_perm (c : Nat) (hc : 0 < c) (xs : List α)
    (hge : c ≤ xs.length) :
    ((pushList (new α c) xs).data).Perm (xs.drop (xs.length - c)) := by
  rw [pushList_new_data_eq_rotate c hc xs hge]
  exact List.rotate_perm _ _

end CircleBuffer

open CircleBuffer in
/-- C5: for every capacity `c > 0`, each of the first `c` pushes evicts
nothing; every later push returns the value pushed exactly `c` pushes
earlier; `len` (the total-insert counter) equals the number of pushes,
never capped at the capacity; and for capacity 3 the stream `1..7` yields
evictions `none, none, none, some 1, some 2, some 3, some 4` with insert
counts `1` through `7`. -/
theorem circle_buffer_push_contract {α : Type} (c : Nat) (hc : 0 < c)
    (xs : List α) (x : α) :
    (xs.length < c → ((pushList (new α c) xs).push x).1 = none) ∧
    (c ≤ xs.length → ((pushList (new α c) xs).push x).1 = xs[xs.length - c]?) ∧
    (pushList (new α c) xs).len = xs.length ∧
    (pushTrace (new Nat 3) [1, 2, 3, 4, 5, 6, 7]).1 =
      [none, none, none, some 1, some 2, some 3, some 4] ∧
    (List.range 7).map
        (fun k => (pushList (new Nat 3) ([1, 2, 3, 4, 5, 6, 7].take (k + 1))).len) =
      [1, 2, 3, 4, 5, 6, 7] := by
  refine ⟨fun h => push_new_fst_of_lt c hc xs h x,
    fun h => push_new_fst_of_ge c hc xs h x, ?_, by decide, by decide⟩
  rw [len, pushList_cursor]
  simp [new]

/-- Witness for C5 at capacity 3: pushing onto `[1, 2]` evicts nothing,
pushing onto `[1, 2, 3, 4]` evicts `2` (pushed 3 pushes earlier), and the
insert counter after 4 pushes is 4. -/
theorem circle_buffer_push_contract_witness :
    ((CircleBuffer.pushList (CircleBuffer.new Nat 3) [1, 2]).push 9).1 = none ∧
    ((CircleBuffer.pushList (CircleBuffer.new Nat 3) [1, 2, 3, 4]).push 9).1 = some 2 ∧
    (CircleBuffer.pushList (CircleBuffer.new Nat 3) [1, 2, 3, 4]).len = 4 :=
  ⟨(circle_buffer_push_contract 3 (by decide) [1, 2] 9).1 (by decide),
   ((circle_buffer_push_contract 3 (by decide) [1, 2, 3, 4] 9).2.1 (by decide)).trans
     (by decide),
   (circle_buffer_push_contract 3 (by decide) [1, 2, 3, 4] 9).2.2.1⟩

open CircleBuffer in
/-- C6: after `n` pushes into a fresh buffer of capacity `c > 0`, if
`n < c` the stored contents are exactly the pushed values in order, and if
`c ≤ n` the stored contents are exactly (a permutation of) the last `c`
pushed values. -/
theorem circle_buffer_window_invariant {α : Type} (c : Nat) (hc : 0 < c)
    (xs : List α) :
    (xs.length < c → (pushList (new α c) xs).data = xs) ∧
    (c ≤ xs.length →
      ((pushList (new α c) xs).data).Perm (xs.drop (xs.length - c))) :=
  ⟨fun h => (pushList_new_characterization c hc xs).2.2.1 h.le,
   fun h => pushList_new_data_perm c hc xs h⟩

/-- Witness for C6 at capacity 3: two pushes store `[1, 2]`, and seven
pushes store exactly the last three values `5, 6, 7` (in ring order
`[7, 5, 6]`). -/
theorem circle_buffer_window_invariant_witness :
    (CircleBuffer.pushList (CircleBuffer.new Nat 3) [1, 2]).data = [1, 2] ∧
    ((CircleBuffer.pushList (CircleBuffer.new Nat 3) [1, 2, 3, 4, 5, 6, 7]).data).Perm
      ([1, 2, 3, 4, 5, 6, 7].drop (7 - 3)) :=
  ⟨(circle_buffer_window_invariant 3 (by decide) [1, 2]).1 (by decide),
   (circle_buffer_window_invariant 3 (by decide) [1, 2, 3, 4, 5, 6, 7]).2 (by decide)⟩

theorem sum_set_of_getElem_eq (l : List ℝ) (i : Nat) (x v : ℝ)
    (hv : l[i]? = some v) :
    (l.set i x).sum = l.sum - v + x := by
  induction l generalizing i with
  | nil => simp at hv
  | cons a t ih =>
    cases i with
    | zero =>
      simp only [List.getElem?_cons_zero, Option.some_inj] at hv
      subst hv
      simp only [List.set_cons_zero, List.sum_cons]
      ring
    | succ j =>
      simp only [List.getElem?_cons_succ] at hv
      simp only [List.set_cons_succ, List.sum_cons, ih j hv]
      ring

namespace HeartbeatHistory

theorem add_eq_append (h : HeartbeatHistory) (x : ℝ)
    (hlt : h.intervals.data.length < h.intervals.capacity) :
    h.add x =
      { intervals :=
          { data := h.intervals.data ++ [x]
            capacity := h.intervals.capacity
            cursor := h.intervals.cursor + 1 }
        interval_sum := h.interval_sum + x
        squared_interval_sum := h.squared_interval_sum + pow2 x } := by
  unfold add
  rw [CircleBuffer.push_eq_append h.intervals x hlt]

theorem add_eq_evict (h : HeartbeatHistory) (x v : ℝ)
    (hge : ¬ h.intervals.data.length < h.intervals.capacity)
    (hv : h.intervals.data[h.intervals.cursor % h.intervals.capacity]? = some v) :
    h.add x =
      { intervals :=
          { data := h.intervals.data.set (h.intervals.cursor % h.intervals.capacity) x
            capacity := h.intervals.capacity
            cursor := h.intervals.cursor + 1 }
        interval_sum := h.interval_sum + x - v
        squared_interval_sum := h.squared_interval_sum + pow2 x - pow2 v } := by
  unfold add
  rw [CircleBuffer.push_eq_evict h.intervals x hge, hv]

theorem add_intervals_capacity (h : HeartbeatHistory) (x : ℝ) :
    (h.add x).intervals.capacity = h.intervals.capacity := by
  unfold add
  rcases hp : h.intervals.push x with ⟨o, buf⟩
  have hbuf := CircleBuffer.push_snd_capacity h.intervals x
  rw [hp] at hbuf
  cases o <;> simpa using hbuf

theorem add_intervals_cursor (h : HeartbeatHistory) (x : ℝ) :
    (h.add x).intervals.cursor = h.intervals.cursor + 1 := by
  unfold add
  rcases hp : h.intervals.push x with ⟨o, buf⟩
  have hbuf := CircleBuffer.push_snd_cursor h.intervals x
  rw [hp] at hbuf
  cases o <;> simpa using hbuf

theorem addList_intervals_capacity (h : HeartbeatHistory) (xs : List ℝ) :
    (addList h xs).intervals.capacity = h.intervals.capacity := by
  induction xs generalizing h with
  | nil => rfl
  | cons y ys ih =>
    rw [addList, List.foldl_cons, ← addList, ih, add_intervals_capacity]

theorem addList_intervals_cursor (h : HeartbeatHistory) (xs : List ℝ) :
    (addList h xs).intervals.cursor = h.intervals.cursor + xs.length := by
  induction xs generalizing h with
  | nil => rfl
  | cons y ys ih =>
    rw [addList, List.foldl_cons, ← addList, ih, add_intervals_cursor,
      List.length_cons]
    omega

theorem add_inv (h : HeartbeatHistory) (x : ℝ)
    (hcap : 0 < h.intervals.capacity) (hinv : HistoryInv h) :
    HistoryInv (h.add x) := by
  obtain ⟨hlen, hsum, hsq⟩ := hinv
  rcases Nat.lt_or_ge h.intervals.data.length h.intervals.capacity with hlt | hge
  · rw [add_eq_append h x hlt]
    refine ⟨?_, ?_, ?_⟩
    · simp only [List.length_append, List.length_singleton]
      omega
    · simp only [List.sum_append, List.sum_cons, List.sum_nil, hsum]
      ring
    · simp only [List.map_append, List.map_cons, List.map_nil, List.sum_append,
        List.sum_cons, List.sum_nil, hsq]
      ring
  · have hidx : h.intervals.cursor % h.intervals.capacity < h.intervals.data.length := by
      have := Nat.mod_lt h.intervals.cursor hcap
      omega
    obtain ⟨v, hv⟩ : ∃ v, h.intervals.data[h.intervals.cursor % h.intervals.capacity]? = some v :=
      ⟨_, List.getElem?_eq_getElem hidx⟩
    rw [add_eq_evict h x v (by omega) hv]
    refine ⟨?_, ?_, ?_⟩
    · simp only [List.length_set]
      omega
    · rw [sum_set_of_getElem_eq _ _ _ _ hv, ← hsum]
      ring
    · have hv' : (h.intervals.data.map pow2)[h.intervals.cursor % h.intervals.capacity]? =
          some (pow2 v) := by
        rw [List.getElem?_map, hv]
        rfl
      rw [List.map_set, sum_set_of_getElem_eq _ _ _ _ hv', ← hsq]
      ring

theorem new_inv (c : Nat) : HistoryInv (new c) := by
  refine ⟨?_, rfl, rfl⟩
  simp [new, CircleBuffer.new]

theorem addList_inv (xs : List ℝ) (h : HeartbeatHistory)
    (hcap : 0 < h.intervals.capacity) (hinv : HistoryInv h) :
    HistoryInv (addList h xs) := by
  induction xs generalizing h with
  | nil => exact hinv
  | cons y ys ih =>
    rw [addList, List.foldl_cons, ← addList]
    exact ih _ (by rw [add_intervals_capacity]; exact hcap) (add_inv h y hcap hinv)

end HeartbeatHistory

/-- C7: after any sequence of adds into a fresh heartbeat history of
positive capacity, `interval_sum` equals the sum of the values currently in
the buffer window and `squared_interval_sum` equals the sum of their
squares. -/
theorem heartbeat_history_accumulator_invariant (c : Nat) (hc : 0 < c)
    (xs : List ℝ) :
    (HeartbeatHistory.addList (HeartbeatHistory.new c) xs).interval_sum =
      ((HeartbeatHistory.addList (HeartbeatHistory.new c) xs).intervals.data).sum ∧
    (HeartbeatHistory.addList (HeartbeatHistory.new c) xs).squared_interval_sum =
      (((HeartbeatHistory.addList (HeartbeatHistory.new c) xs).intervals.data).map pow2).sum := by
  have h := HeartbeatHistory.addList_inv xs (HeartbeatHistory.new c)
    (by simpa [HeartbeatHistory.new, CircleBuffer.new] using hc)
    (HeartbeatHistory.new_inv c)
  exact ⟨h.2.1, h.2.2⟩

/-- Witness for C7: capacity 1, adds `2` then `3`; the second add evicts
the first, and both accumulators match the one-element window. -/
theorem heartbeat_history_accumulator_invariant_witness :
    (HeartbeatHistory.addList (HeartbeatHistory.new 1) [2, 3]).interval_sum =
      ((HeartbeatHistory.addList (HeartbeatHistory.new 1) [2, 3]).intervals.data).sum ∧
    (HeartbeatHistory.addList (HeartbeatHistory.new 1) [2, 3]).squared_interval_sum =
      (((HeartbeatHistory.addList (HeartbeatHistory.new 1) [2, 3]).intervals.data).map pow2).sum :=
  heartbeat_history_accumulator_invariant 1 (by decide) [2, 3]

/-- C3: after `n` adds into a fresh heartbeat history of positive capacity
`c`, the mean is the running sum divided by `n` (the uncapped total-insert
counter) and the variance is the running sum of squares divided by `n`
minus the square of the mean, while the number of samples actually present
in the window is `min n c` — so past overflow the divisor is `n`, not the
window size. -/
theorem history_mean_variance_divisor (c : Nat) (hc : 0 < c) (xs : List ℝ) :
    (HeartbeatHistory.addList (HeartbeatHistory.new c) xs).mean =
      (HeartbeatHistory.addList (HeartbeatHistory.new c) xs).interval_sum / (xs.length : ℝ) ∧
    (HeartbeatHistory.addList (HeartbeatHistory.new c) xs).variance =
      (HeartbeatHistory.addList (HeartbeatHistory.new c) xs).squared_interval_sum / (xs.length : ℝ)
        - pow2 ((HeartbeatHistory.addList (HeartbeatHistory.new c) xs).mean) ∧
    ((HeartbeatHistory.addList (HeartbeatHistory.new c) xs).intervals).len = xs.length ∧
    ((HeartbeatHistory.addList (HeartbeatHistory.new c) xs).intervals).data.length =
      min xs.length c := by
  have hcur : (HeartbeatHistory.addList (HeartbeatHistory.new c) xs).intervals.cursor =
      xs.length := by
    rw [HeartbeatHistory.addList_intervals_cursor]
    simp [HeartbeatHistory.new, CircleBuffer.new]
  have hcap : (HeartbeatHistory.addList (HeartbeatHistory.new c) xs).intervals.capacity = c := by
    rw [HeartbeatHistory.addList_intervals_capacity]
    rfl
  have hlen := (HeartbeatHistory.addList_inv xs (HeartbeatHistory.new c)
    (by simpa [HeartbeatHistory.new, CircleBuffer.new] using hc)
    (HeartbeatHistory.new_inv c)).1
  refine ⟨?_, ?_, ?_, ?_⟩
  · simp only [HeartbeatHistory.mean, CircleBuffer.len, hcur]
  · simp only [HeartbeatHistory.variance, CircleBuffer.len, hcur]
  · simp only [CircleBuffer.len, hcur]
  · rw [hlen, hcur, hcap]

/-- Witness for C3: capacity 2 with three adds `1, 2, 3`; the divisor is 3
while only two samples remain in the window. -/
theorem history_mean_variance_divisor_witness :
    (HeartbeatHistory.addList (HeartbeatHistory.new 2) [1, 2, 3]).mean =
      (HeartbeatHistory.addList (HeartbeatHistory.new 2) [1, 2, 3]).interval_sum / ((3 : Nat) : ℝ) ∧
    ((HeartbeatHistory.addList (HeartbeatHistory.new 2) [1, 2, 3]).intervals).len = 3 ∧
    ((HeartbeatHistory.addList (HeartbeatHistory.new 2) [1, 2, 3]).intervals).data.length = 2 := by
  have h := history_mean_variance_divisor 2 (by decide) [1, 2, 3]
  exact ⟨h.1, h.2.2.1, h.2.2.2⟩

/-- C4: `build` returns the threshold error exactly when `threshold ≤ 0`,
else the max-sample-size error exactly when `max_sample_size = 0`, else the
min-std-deviation error exactly when `min_std_deviation` is the zero
duration, else the first-heartbeat-estimate error exactly when
`first_heartbeat_estimate` is the zero duration; when every check passes it
returns a detector state, and in particular the all-default configuration
is accepted. -/
theorem build_validation (config : Config) :
    (build config = .error .threshold ↔ config.threshold ≤ 0) ∧
    (build config = .error .maxSampleSize ↔
      ¬ config.threshold ≤ 0 ∧ config.max_sample_size = 0) ∧
    (build config = .error .minStdDeviation ↔
      ¬ config.threshold ≤ 0 ∧ ¬ config.max_sample_size = 0 ∧
        config.min_std_deviation = 0) ∧
    (build config = .error .firstHeartbeatEstimate ↔
      ¬ config.threshold ≤ 0 ∧ ¬ config.max_sample_size = 0 ∧
        ¬ config.min_std_deviation = 0 ∧ config.first_heartbeat_estimate = 0) ∧
    (¬ config.threshold ≤ 0 → ¬ config.max_sample_size = 0 →
      ¬ config.min_std_deviation = 0 → ¬ config.first_heartbeat_estimate = 0 →
      buildHistory config ≠ none) ∧
    buildHistory Config.default ≠ none := by
  have hmain : ∀ cfg : Config,
      (build cfg = .error .threshold ↔ cfg.threshold ≤ 0) ∧
      (build cfg = .error .maxSampleSize ↔
        ¬ cfg.threshold ≤ 0 ∧ cfg.max_sample_size = 0) ∧
      (build cfg = .error .minStdDeviation ↔
        ¬ cfg.threshold ≤ 0 ∧ ¬ cfg.max_sample_size = 0 ∧
          cfg.min_std_deviation = 0) ∧
      (build cfg = .error .firstHeartbeatEstimate ↔
        ¬ cfg.threshold ≤ 0 ∧ ¬ cfg.max_sample_size = 0 ∧
          ¬ cfg.min_std_deviation = 0 ∧ cfg.first_heartbeat_estimate = 0) ∧
      (¬ cfg.threshold ≤ 0 → ¬ cfg.max_sample_size = 0 →
        ¬ cfg.min_std_deviation = 0 → ¬ cfg.first_heartbeat_estimate = 0 →
        buildHistory cfg ≠ none) := by
    intro cfg
    unfold buildHistory build
    split_ifs with h1 h2 h3 h4 <;> simp_all
  obtain ⟨ha, hb, hc, hd, he⟩ := hmain config
  refine ⟨ha, hb, hc, hd, he, ?_⟩
  exact (hmain Config.default).2.2.2.2
    (by norm_num [Config.default]) (by norm_num [Config.default])
    (by norm_num [Config.default]) (by norm_num [Config.default])

/-- Witness for C4: the default configuration builds successfully, a zero
threshold yields the threshold error, and a zero sample size (with a valid
threshold) yields the max-sample-size error. -/
theorem build_validation_witness :
    buildHistory Config.default ≠ none ∧
    build { threshold := 0, max_sample_size := 100, min_std_deviation := 100000000,
            acceptable_heartbeat_pause := 3000000000,
            first_heartbeat_estimate := 1000000000 } = .error .threshold ∧
    build { threshold := 8, max_sample_size := 0, min_std_deviation := 100000000,
            acceptable_heartbeat_pause := 3000000000,
            first_heartbeat_estimate := 1000000000 } = .error .maxSampleSize :=
  ⟨(build_validation Config.default).2.2.2.2.2,
   (build_validation _).1.mpr (by norm_num),
   (build_validation _).2.1.mpr (by norm_num)⟩

/-- Counterexample to C8 as stated: with the valid configuration
`max_sample_size = 1` and `first_heartbeat_estimate = 1 s` (so `e = 1000`),
the second bootstrap sample evicts the first, and the freshly built history
has mean `625`, not `e = 1000` — the history does not contain both synthetic
samples. -/
theorem build_bootstrap_stats_counterexample :
    buildHistoryMean
        { threshold := 8, max_sample_size := 1, min_std_deviation := 100000000,
          acceptable_heartbeat_pause := 3000000000,
          first_heartbeat_estimate := 1000000000 } = some 625 ∧
    buildHistoryData
        { threshold := 8, max_sample_size := 1, min_std_deviation := 100000000,
          acceptable_heartbeat_pause := 3000000000,
          first_heartbeat_estimate := 1000000000 } = some [1250] ∧
    Duration.asMillis 1000000000 = 1000 ∧ (625 : ℝ) ≠ 1000 := by
  refine ⟨?_, ?_, by norm_num [Duration.asMillis], by norm_num⟩ <;>
    norm_num [buildHistoryMean, buildHistoryData, buildHistory, build,
      Duration.asMillis, HeartbeatHistory.new, CircleBuffer.new,
      HeartbeatHistory.add, CircleBuffer.push, HeartbeatHistory.mean,
      CircleBuffer.len, pow2]

/-- C8 (amended): for every configuration that passes validation **and has
`max_sample_size ≥ 2`**, the freshly built history contains exactly the two
synthetic samples `e − e/4` and `e + e/4` (with `e` the estimate in whole
milliseconds), its mean is `e`, and its standard deviation is `e/4`.  (The
original claim, quantified over every valid configuration, fails at
`max_sample_size = 1`: see the counterexample.) -/
theorem build_bootstrap_stats (config : Config)
    (h1 : ¬ config.threshold ≤ 0) (h2 : 2 ≤ config.max_sample_size)
    (h3 : ¬ config.min_std_deviation = 0)
    (h4 : ¬ config.first_heartbeat_estimate = 0) :
    buildHistoryData config =
      some [(config.first_heartbeat_estimate.asMillis : ℝ) -
              (config.first_heartbeat_estimate.asMillis : ℝ) / 4,
            (config.first_heartbeat_estimate.asMillis : ℝ) +
              (config.first_heartbeat_estimate.asMillis : ℝ) / 4] ∧
    buildHistoryMean config = some (config.first_heartbeat_estimate.asMillis : ℝ) ∧
    buildHistoryStd config = some ((config.first_heartbeat_estimate.asMillis : ℝ) / 4) := by
  set E : ℝ := (config.first_heartbeat_estimate.asMillis : ℝ) with hE
  have hh : buildHistory config =
      some (((HeartbeatHistory.new config.max_sample_size).add (E - E / 4)).add
        (E + E / 4)) := by
    unfold buildHistory build
    rw [if_neg h1, if_neg (by omega), if_neg h3, if_neg h4]
  have ha1 : (HeartbeatHistory.new config.max_sample_size).add (E - E / 4) =
      (⟨⟨[E - E / 4], config.max_sample_size, 1⟩,
        0 + (E - E / 4), 0 + pow2 (E - E / 4)⟩ : HeartbeatHistory) := by
    rw [HeartbeatHistory.add_eq_append _ _ (by
      simp only [HeartbeatHistory.new, CircleBuffer.new, List.length_nil]
      omega)]
    rfl
  have ha2 : ((⟨⟨[E - E / 4], config.max_sample_size, 1⟩,
        0 + (E - E / 4), 0 + pow2 (E - E / 4)⟩ : HeartbeatHistory)).add (E + E / 4) =
      (⟨⟨[E - E / 4, E + E / 4], config.max_sample_size, 2⟩,
        0 + (E - E / 4) + (E + E / 4),
        0 + pow2 (E - E / 4) + pow2 (E + E / 4)⟩ : HeartbeatHistory) := by
    rw [HeartbeatHistory.add_eq_append _ _ (by
      simp only [List.length_singleton]
      omega)]
    rfl
  have hvar : ((⟨⟨[E - E / 4, E + E / 4], config.max_sample_size, 2⟩,
      0 + (E - E / 4) + (E + E / 4),
      0 + pow2 (E - E / 4) + pow2 (E + E / 4)⟩ : HeartbeatHistory)).variance =
      (E / 4) ^ 2 := by
    simp only [HeartbeatHistory.variance, HeartbeatHistory.mean,
      CircleBuffer.len, pow2]
    push_cast
    ring
  refine ⟨?_, ?_, ?_⟩
  · unfold buildHistoryData
    rw [hh, ha1, ha2]
    rfl
  · unfold buildHistoryMean
    rw [hh, ha1, ha2]
    simp only [Option.map_some', Option.some.injEq, HeartbeatHistory.mean,
      CircleBuffer.len]
    push_cast
    ring
  · unfold buildHistoryStd
    rw [hh, ha1, ha2]
    simp only [Option.map_some', Option.some.injEq, HeartbeatHistory.std_deviation]
    rw [hvar, Real.sqrt_sq (by positivity)]

/-- Witness for C8 (amended) at the default configuration: `e = 1000`, so
the bootstrap samples are `750` and `1250`, the initial mean is `1000` and
the initial standard deviation is `250`. -/
theorem build_bootstrap_stats_witness :
    buildHistoryData Config.default = some [750, 1250] ∧
    buildHistoryMean Config.default = some 1000 ∧
    buildHistoryStd Config.default = some 250 := by
  obtain ⟨hd, hm, hs⟩ := build_bootstrap_stats Config.default
    (by norm_num [Config.default]) (by norm_num [Config.default])
    (by norm_num [Config.default]) (by norm_num [Config.default])
  have he : ((Config.default.first_heartbeat_estimate.asMillis : ℕ) : ℝ) = 1000 := by
    norm_num [Config.default, Duration.asMillis]
  rw [he] at hd hm hs
  refine ⟨?_, hm, ?_⟩
  · rw [hd]
    norm_num
  · rw [hs]
    norm_num

/-- The phi formula below the `none` guard, with the branch condition and
the two arms exposed: whenever a last heartbeat exists, `phi_for_timestamp`
is the corresponding arm evaluated at the logistic exponential. -/
theorem phi_for_timestamp_some (st : DetectorState) (last ts : ℝ)
    (h : st.last_timestamp = some last) :
    st.phi_for_timestamp ts =
      if elapsedMs last ts > st.history.mean + st.acceptable_heartbeat_pause then
        -Real.logb 10 (phiExpTerm st last ts / (1 + phiExpTerm st last ts))
      else
        -Real.logb 10 (1 - 1 / (1 + phiExpTerm st last ts)) := by
  unfold DetectorState.phi_for_timestamp phiExpTerm
  rw [h]

/-- C1: `phi_for_timestamp` computes exactly the closed-form expression of
the specification — `Δ`, `μ`, `σ`, `y`, `e` and the two `−log10` arms
selected on `Δ > μ` — and returns `0` when no heartbeat has ever been
recorded. -/
theorem phi_matches_spec_formula (st : DetectorState) (ts : ℝ) :
    st.phi_for_timestamp ts = specPhi st ts ∧
    (st.last_timestamp = none → st.phi_for_timestamp ts = 0) := by
  constructor
  · unfold DetectorState.phi_for_timestamp specPhi
    cases st.last_timestamp with
    | none => rfl
    | some last =>
      dsimp only
      ring_nf
  · intro h
    unfold DetectorState.phi_for_timestamp
    rw [h]

/-- Witness for C1: a state with no recorded heartbeat has phi `0`. -/
theorem phi_matches_spec_formula_witness :
    (⟨8, 0, 1, HeartbeatHistory.new 1, none⟩ : DetectorState).phi_for_timestamp 0 = 0 :=
  (phi_matches_spec_formula ⟨8, 0, 1, HeartbeatHistory.new 1, none⟩ 0).2 rfl

/-- C9: phi is non-negative for every detector state and timestamp: the
no-heartbeat branch returns `0`, and both closed-form arms are `−log10` of
a quantity strictly between `0` and `1`. -/
theorem phi_nonneg (st : DetectorState) (ts : ℝ) :
    0 ≤ st.phi_for_timestamp ts := by
  unfold DetectorState.phi_for_timestamp
  cases st.last_timestamp with
  | none => exact le_refl 0
  | some last =>
    dsimp only
    set y : ℝ :=
      (elapsedMs last ts - (st.history.mean + st.acceptable_heartbeat_pause)) /
        max st.history.std_deviation st.min_std_deviation with hy
    set e : ℝ := Real.exp (-y * (1.5976 + 0.070566 * y * y)) with he
    have hepos : 0 < e := Real.exp_pos _
    have hpos : 0 < e / (1 + e) := by positivity
    have hlt1 : e / (1 + e) < 1 := by
      rw [div_lt_one (by linarith)]
      linarith
    have hneg := Real.logb_neg (show (1 : ℝ) < 10 by norm_num) hpos hlt1
    split
    · linarith
    · have heq : 1 - 1 / (1 + e) = e / (1 + e) := by
        field_simp
      rw [heq]
      linarith

/-- C10: the two arms of the phi branch denote the same real value — for
the positive logistic exponential `e`, `1 − 1/(1+e) = e/(1+e)`; hence
whenever a last heartbeat exists, `phi_for_timestamp` equals either arm's
expression regardless of whether `Δ > μ` held. -/
theorem phi_branch_agreement (st : DetectorState) (last ts : ℝ) :
    (st.last_timestamp = some last →
      st.phi_for_timestamp ts =
        -Real.logb 10 (phiExpTerm st last ts / (1 + phiExpTerm st last ts)) ∧
      st.phi_for_timestamp ts =
        -Real.logb 10 (1 - 1 / (1 + phiExpTerm st last ts))) ∧
    (∀ x : ℝ, 0 < x → 1 - 1 / (1 + x) = x / (1 + x)) := by
  constructor
  · intro h
    rw [phi_for_timestamp_some st last ts h]
    have hepos : 0 < phiExpTerm st last ts := Real.exp_pos _
    have heq : 1 - 1 / (1 + phiExpTerm st last ts) =
        phiExpTerm st last ts / (1 + phiExpTerm st last ts) := by
      field_simp
    split
    · exact ⟨rfl, by rw [heq]⟩
    · exact ⟨by rw [heq], rfl⟩
  · intro x hx
    have hne : (1 : ℝ) + x ≠ 0 := by positivity
    field_simp

/-- Witness for C10: a concrete state with a recorded heartbeat, on which
both arm expressions equal phi, and the pure identity at `x = 2`. -/
theorem phi_branch_agreement_witness :
    ((⟨10, 0, 1, HeartbeatHistory.new 1, some 0⟩ : DetectorState).phi_for_timestamp 0 =
      -Real.logb 10
        (phiExpTerm ⟨10, 0, 1, HeartbeatHistory.new 1, some 0⟩ 0 0 /
          (1 + phiExpTerm ⟨10, 0, 1, HeartbeatHistory.new 1, some 0⟩ 0 0)) ∧
     (⟨10, 0, 1, HeartbeatHistory.new 1, some 0⟩ : DetectorState).phi_for_timestamp 0 =
      -Real.logb 10
        (1 - 1 / (1 + phiExpTerm ⟨10, 0, 1, HeartbeatHistory.new 1, some 0⟩ 0 0))) ∧
    1 - 1 / (1 + (2 : ℝ)) = 2 / (1 + 2) :=
  ⟨(phi_branch_agreement ⟨10, 0, 1, HeartbeatHistory.new 1, some 0⟩ 0 0).1 rfl,
   (phi_branch_agreement ⟨10, 0, 1, HeartbeatHistory.new 1, some 0⟩ 0 0).2 2 (by norm_num)⟩

/-- C2: `heartbeat` always records the new timestamp; it feeds the elapsed
interval into the history exactly when a previous timestamp exists and phi
evaluated at the new timestamp (against the previous one) is strictly below
the threshold; on the first-ever heartbeat, or when the detector is already
judged down, the history is left unchanged. -/
theorem heartbeat_updates (st : DetectorState) (ts : ℝ) :
    (st.heartbeat ts).last_timestamp = some ts ∧
    (st.last_timestamp = none → (st.heartbeat ts).history = st.history) ∧
    (∀ last, st.last_timestamp = some last →
      (st.phi_for_timestamp ts < st.threshold →
        (st.heartbeat ts).history = st.history.add (elapsedMs last ts)) ∧
      (¬ st.phi_for_timestamp ts < st.threshold →
        (st.heartbeat ts).history = st.history)) := by
  refine ⟨rfl, ?_, ?_⟩
  · intro h
    unfold DetectorState.heartbeat
    rw [h]
  · intro last h
    constructor
    · intro hav
      unfold DetectorState.heartbeat DetectorState.is_available_for_timestamp
      rw [h]
      dsimp only
      rw [if_pos hav]
    · intro hnav
      unfold DetectorState.heartbeat DetectorState.is_available_for_timestamp
      rw [h]
      dsimp only
      rw [if_neg hnav]

/-- Witness for C2: a concrete available state — bootstrap samples `0, 0`,
threshold `10`, pause `0`, heartbeat at the same instant as the previous
one, where phi is `log10 2 < 10` — records the timestamp and adds the
elapsed interval to the history. -/
theorem heartbeat_updates_witness :
    ((⟨10, 0, 1, (HeartbeatHistory.new 2).add 0 |>.add 0, some 0⟩ :
        DetectorState).heartbeat 0).last_timestamp = some 0 ∧
    ((⟨10, 0, 1, (HeartbeatHistory.new 2).add 0 |>.add 0, some 0⟩ :
        DetectorState).heartbeat 0).history =
      (((HeartbeatHistory.new 2).add 0).add 0).add (elapsedMs 0 0) := by
  have hmean : (((HeartbeatHistory.new 2).add 0).add 0).mean = 0 := by
    norm_num [HeartbeatHistory.add, CircleBuffer.push, HeartbeatHistory.new,
      CircleBuffer.new, HeartbeatHistory.mean, CircleBuffer.len, pow2]
  have hvar : (((HeartbeatHistory.new 2).add 0).add 0).variance = 0 := by
    norm_num [HeartbeatHistory.add, CircleBuffer.push, HeartbeatHistory.new,
      CircleBuffer.new, HeartbeatHistory.variance, HeartbeatHistory.mean,
      CircleBuffer.len, pow2]
  have hstd : (((HeartbeatHistory.new 2).add 0).add 0).std_deviation = 0 := by
    unfold HeartbeatHistory.std_deviation
    rw [hvar, Real.sqrt_zero]
  have hexp : phiExpTerm ⟨10, 0, 1, (HeartbeatHistory.new 2).add 0 |>.add 0, some 0⟩
      0 0 = Real.exp 0 := by
    unfold phiExpTerm
    dsimp only
    rw [hmean, hstd]
    norm_num [elapsedMs]
  have hphi : (⟨10, 0, 1, (HeartbeatHistory.new 2).add 0 |>.add 0, some 0⟩ :
      DetectorState).phi_for_timestamp 0 = Real.logb 10 2 := by
    rw [phi_for_timestamp_some _ 0 0 rfl]
    dsimp only
    rw [hmean, hexp]
    rw [if_neg (by norm_num [elapsedMs])]
    rw [Real.exp_zero]
    rw [show (1 : ℝ) - 1 / (1 + 1) = 2⁻¹ by norm_num, Real.logb_inv]
    ring
  have hlog2 : Real.logb 10 2 < 1 := by
    rw [Real.logb, div_lt_one (Real.log_pos (by norm_num))]
    exact Real.log_lt_log (by norm_num) (by norm_num)
  have hav : (⟨10, 0, 1, (HeartbeatHistory.new 2).add 0 |>.add 0, some 0⟩ :
      DetectorState).phi_for_timestamp 0 <
      (⟨10, 0, 1, (HeartbeatHistory.new 2).add 0 |>.add 0, some 0⟩ :
        DetectorState).threshold := by
    rw [hphi]
    dsimp only
    linarith
  exact ⟨(heartbeat_updates _ 0).1,
    ((heartbeat_updates _ 0).2.2 0 rfl).1 hav⟩
